import Mathlib

/-!
Verification of the EV spot-allocation state machine.

Shallow embedding of `netlify/functions/state.js`: the state document
(users / spots / queue), the allocation-engine actions dispatched by
`exports.handler`, and the optimistic-concurrency contract against the
external versioned blob store.

Conventions of the embedding:
* JS numbers used as identifiers (`Date.now()` values, user ids) are `Nat`;
  queue positions are `Int` (the code compares and maxes them).
* JS truthiness of a number is `≠ 0`; of a nullable id field, `Option.isSome`
  with `some 0` also falsy (`!s.userId`, `!userId`).
* The in-place array mutations of the source (`sort`, `splice`, assignment
  through element references) become explicit list transformations.
-/

namespace EvQueue

/-- A user record `{ id, name, pref }` as pushed by the `addUser` branch.  `pref` is
kept as the raw string (`'Tesla' | 'ChargePoint' | 'Both'` in normal operation). -/
structure User where
  id : Nat
  name : String
  pref : String
deriving DecidableEq

/-- A queue row `{ id, userId, position }` as pushed by `addToQueue`. -/
structure QueueEntry where
  id : Nat
  userId : Nat
  position : Int
deriving DecidableEq

/-- A spot row `{ id, type, label, userId }` from `defaultState`. -/
structure Spot where
  id : String
  type : String
  label : String
  userId : Option Nat
deriving DecidableEq

/-- The whole persisted JSON document. -/
structure StateDoc where
  users : List User
  queue : List QueueEntry
  spots : List Spot
  lastReset : Option Nat
deriving DecidableEq

/-- The source's `function defaultState()`. -/
def defaultState : StateDoc :=
  { users := []
    queue := []
    spots :=
      [ { id := "tesla-1", type := "Tesla", label := "Tesla #1", userId := none }
      , { id := "tesla-2", type := "Tesla", label := "Tesla #2", userId := none }
      , { id := "chargepoint-1", type := "ChargePoint", label := "ChargePoint #1", userId := none }
      , { id := "chargepoint-2", type := "ChargePoint", label := "ChargePoint #2", userId := none } ]
    lastReset := none }

/-- The source's `eligible`: `return pref === 'Both' || pref === type`. -/
def eligible (pref ty : String) : Bool :=
  pref == "Both" || pref == ty

/-- JS truthiness of the nullable numeric field `s.userId`: `!s.userId` is
true when the field is `null` or the number `0`. -/
def falsyId : Option Nat → Bool
  | none => true
  | some u => u == 0

/-- The predicate of the `findIndex` scans in the `endSession` / `fillSpots`
branches: `const u = json.users.find(x => x.id === q.userId); return u &&
eligible(u.pref, spot.type);`. -/
def eligibleEntry (users : List User) (ty : String) (q : QueueEntry) : Bool :=
  match users.find? (fun x => x.id == q.userId) with
  | some u => eligible u.pref ty
  | none => false

/-- The backfill step shared by `endSession` and `fillSpots`:
`idx = queue.findIndex(eligible…); if (idx >= 0) { entry = queue.splice(idx,1)[0];
spot.userId = entry.userId }` — returns the assigned user id (if any) and the
queue with that one entry removed. -/
def backfill (users : List User) (ty : String) : List QueueEntry → Option Nat × List QueueEntry
  | [] => (none, [])
  | e :: rest =>
    if eligibleEntry users ty e then (some e.userId, rest)
    else
      let r := backfill users ty rest
      (r.1, e :: r.2)

/-- The `endSession` branch body: `json.spots.find(s => s.id === spotId)`
takes the first spot with that id; its `userId` is set to `null` and the
backfill runs; all later spots and, when no spot matches, the whole state are
untouched. -/
def endSessionGo (users : List User) (spotId : String) :
    List Spot → List QueueEntry → List Spot × List QueueEntry
  | [], q => ([], q)
  | s :: rest, q =>
    if s.id == spotId then
      match backfill users s.type q with
      | (some u, q') => ({ s with userId := some u } :: rest, q')
      | (none, _) => ({ s with userId := none } :: rest, q)
    else
      let r := endSessionGo users spotId rest q
      (s :: r.1, r.2)

/-- The `endSession` action on the whole document. -/
def endSession (st : StateDoc) (spotId : String) : StateDoc :=
  let r := endSessionGo st.users spotId st.spots st.queue
  { st with spots := r.1, queue := r.2 }

/-- The `fillSpots` loop: `for (const spot of json.spots.filter(s => !s.userId))`
runs the backfill once per initially-falsy spot, in document order, threading
the spliced queue through the iterations. -/
def fillGo (users : List User) :
    List Spot → List QueueEntry → List Spot × List QueueEntry
  | [], q => ([], q)
  | s :: rest, q =>
    if falsyId s.userId then
      match backfill users s.type q with
      | (some u, q') =>
        let r := fillGo users rest q'
        ({ s with userId := some u } :: r.1, r.2)
      | (none, _) =>
        let r := fillGo users rest q
        (s :: r.1, r.2)
    else
      let r := fillGo users rest q
      (s :: r.1, r.2)

/-- The `fillSpots` action on the whole document. -/
def fillSpots (st : StateDoc) : StateDoc :=
  let r := fillGo st.users st.spots st.queue
  { st with spots := r.1, queue := r.2 }

/-- The fresh position `(json.queue.length ? Math.max(...json.queue.map(e => e.position)) : 0) + 1`. -/
def nextPos (q : List QueueEntry) : Int :=
  (match q.map (fun e => e.position) with
   | [] => 0
   | p :: ps => ps.foldl max p) + 1

/-- The stable in-place `json.queue.sort((a, b) => a.position - b.position)`:
ascending by `position`, ties keeping document order (JS `Array.prototype.sort`
is stable). -/
def sortQueue (q : List QueueEntry) : List QueueEntry :=
  q.insertionSort (fun a b => a.position ≤ b.position)

/-- The swap in the `moveQueue` branch: `A = q[idx], B = q[to]; t = A.position;
A.position = B.position; B.position = t`. -/
def swapPos (q : List QueueEntry) (i j : Nat) : List QueueEntry :=
  match q[i]?, q[j]? with
  | some a, some b =>
    (q.set i { a with position := b.position }).set j { b with position := a.position }
  | _, _ => q

/-- The `moveQueue` branch.  Note the source sorts `json.queue` **in place**
before looking for the user, so the sorted order persists in the document even
on the "no-op" paths. -/
def moveQueue (st : StateDoc) (userId : Nat) (delta : Int) : StateDoc :=
  match (sortQueue st.queue).findIdx? (fun e => e.userId == userId) with
  | none => { st with queue := sortQueue st.queue }
  | some idx =>
    if 0 ≤ (idx : Int) + delta ∧ (idx : Int) + delta < ((sortQueue st.queue).length : Int) then
      { st with queue := swapPos (sortQueue st.queue) idx ((idx : Int) + delta).toNat }
    else
      { st with queue := sortQueue st.queue }

/-- The name normalisation `(payload.name || '').trim()`.  `String.trim` of core does not reduce in
the kernel, so trimming is spelled out on the character list (same whitespace
semantics for the plain-space names this system handles). -/
def trimName (s : String) : String :=
  ⟨((s.data.dropWhile Char.isWhitespace).reverse.dropWhile Char.isWhitespace).reverse⟩

/-- The pref default `payload.pref || 'Both'` — an absent/empty pref string becomes Both. -/
def prefOrBoth (pref : String) : String :=
  if pref = "" then "Both" else pref

/-- The action envelope dispatched on `body.action`.  Payload fields are the
ones each branch reads; an absent numeric field is the falsy `0`, an absent
string is `""`.  `unknownAction` stands for any other action string. -/
inductive Action where
  | addUser (name pref : String)
  | addToQueue (userId : Nat)
  | removeFromQueue (userId : Nat)
  | moveQueue (userId : Nat) (delta : Int)
  | endSession (spotId : String)
  | fillSpots
  | clearQueue
  | writeAll (doc : StateDoc)
  | unknownAction (name : String)
deriving DecidableEq

/-- Is this the trusted full-document overwrite? -/
def Action.isWriteAll : Action → Bool
  | .writeAll _ => true
  | _ => false

/-- Validation failures (`return bad(400, msg)` before any write). -/
inductive EngineErr where
  | invalidInput (msg : String)
deriving DecidableEq

/-- The action-dispatch chain of `exports.handler`, as a pure step
`(state, action) → new state | validation failure`.  `now` stands for the
`Date.now()` value used for fresh ids.  Every `bad(400, …)` return of the
source happens before the document is touched, so the failing branches leave
the input state unmentioned. -/
def applyAction (st : StateDoc) (a : Action) (now : Nat) : Except EngineErr StateDoc :=
  match a with
  | .addUser name pref =>
    let name := trimName name
    if name = "" then .error (.invalidInput "Name required")
    else .ok { st with users := st.users ++ [{ id := now, name := name, pref := prefOrBoth pref }] }
  | .addToQueue userId =>
    if userId == 0 then .error (.invalidInput "userId required")
    else
      let onCharger := st.spots.any (fun s => s.userId == some userId)
      let inQueue := st.queue.any (fun q => q.userId == userId)
      if !onCharger && !inQueue then
        .ok { st with queue := st.queue ++ [{ id := now, userId := userId, position := nextPos st.queue }] }
      else .ok st
  | .removeFromQueue userId =>
    .ok { st with queue := st.queue.filter (fun q => !(q.userId == userId)) }
  | .moveQueue userId delta => .ok (moveQueue st userId delta)
  | .endSession spotId => .ok (endSession st spotId)
  | .fillSpots => .ok (fillSpots st)
  | .clearQueue => .ok { st with queue := [] }
  | .writeAll doc => .ok doc
  | .unknownAction _ => .error (.invalidInput "Unknown action")

/-- The state an invocation leaves behind: the engine's output on success,
the untouched input on a validation failure. -/
def stepState (st : StateDoc) (a : Action) (now : Nat) : StateDoc :=
  match applyAction st a now with
  | .ok d => d
  | .error _ => st

/-! Store model: the external versioned blob store.

Modelled from the spec: the store itself (the GitHub Contents API reached by
`readFromRepo` / `writeToRepo`) is outside this repository; §4.3 specifies it
as `read() -> (document | null, versionToken | null)` and
`write(document, versionToken | null) -> ok | Conflict` where the write fails
unless the supplied token matches the store's current version.  Versions are
modelled as a counter bumped by every successful write. -/
structure Store where
  blob : Option StateDoc
  ver : Nat
deriving DecidableEq

/-- The version token a read of this store returns (`sha`, `null` when the
object does not exist yet). -/
def readToken (s : Store) : Option Nat :=
  match s.blob with
  | some _ => some s.ver
  | none => none

/-- The document the handler works on after
`({json, sha} = readFromRepo(…)); if (!json) json = defaultState()`. -/
def docOf (s : Store) : StateDoc :=
  match s.blob with
  | some d => d
  | none => defaultState

/-- Store-side failure of a conditional write. -/
inductive StoreErr where
  | conflict
deriving DecidableEq

/-- Modelled from the spec: the conditional write of §4.3 — succeeds and bumps
the version exactly when the supplied token matches the current one. -/
def storeWrite (s : Store) (d : StateDoc) (expected : Option Nat) : Except StoreErr Store :=
  if expected = readToken s then .ok { blob := some d, ver := s.ver + 1 }
  else .error .conflict

/-- What the handler hands back to the HTTP layer. -/
inductive HandlerResult where
  | okTrue
  | errorResp (status : Nat) (msg : String)
deriving DecidableEq

/-- The write phase of a POST invocation: `await writeToRepo(…, json, sha)`
followed by `{ ok: true }`; a failed write throws and surfaces as the 500
response of the catch block, leaving the store as it was. -/
def writePhase (s : Store) (d : StateDoc) (tok : Option Nat) : HandlerResult × Store :=
  match storeWrite s d tok with
  | .ok s' => (.okTrue, s')
  | .error .conflict => (.errorResp 500 "Error: Repo write failed", s)

/-- A whole POST invocation running alone: read the store, run the engine,
and on success write the new document conditioned on the token of the initial
read.  Validation failures return before `writeToRepo` is reached. -/
def runPost (s : Store) (a : Action) (now : Nat) : HandlerResult × Store :=
  match applyAction (docOf s) a now with
  | .error (.invalidInput msg) => (.errorResp 400 msg, s)
  | .ok d => writePhase s d (readToken s)

/-- The GET path: the document served is the stored one, or `defaultState()`
when the store has no object at the path. -/
def runGet (s : Store) : StateDoc :=
  docOf s

/-! Query predicates of the State Model (spec 4.1). -/

/-- The query `isPlaced(state, userId)`: some spot's `userId` equals the given id. -/
def isPlaced (st : StateDoc) (u : Nat) : Bool :=
  st.spots.any (fun s => s.userId == some u)

/-- The query `isQueued(state, userId)`: some queue entry's `userId` equals the id. -/
def isQueued (st : StateDoc) (u : Nat) : Bool :=
  st.queue.any (fun q => q.userId == u)

/-- The no-double-placement invariant: no user id is simultaneously placed
and queued. -/
def NoDouble (st : StateDoc) : Prop :=
  ∀ u : Nat, ¬(isPlaced st u = true ∧ isQueued st u = true)

/-- At most one queue entry per user id (§3 QueueEntry invariant). -/
def QueueUnique (st : StateDoc) : Prop :=
  (st.queue.map (fun e => e.userId)).Nodup

/-- An entry is dangling when no user record carries its `userId`. -/
def dangling (users : List User) (e : QueueEntry) : Bool :=
  (users.find? (fun x => x.id == e.userId)).isNone

/-- The user ids written into spots by one call: position-wise comparison of
the spot list before and after, collecting the new `userId` of every spot
whose `userId` changed. -/
def assignedIds : List Spot → List Spot → List Nat
  | s :: rest, s' :: rest' =>
    (match s'.userId with
     | some u => if s'.userId = s.userId then [] else [u]
     | none => []) ++ assignedIds rest rest'
  | _, _ => []

/-! Helper lemmas. -/

theorem backfill_none {users : List User} {ty : String} {q : List QueueEntry}
    (h : (backfill users ty q).1 = none) :
    (backfill users ty q).2 = q ∧ ∀ e ∈ q, eligibleEntry users ty e = false := by
  induction q with
  | nil => exact ⟨rfl, by simp⟩
  | cons e rest ih =>
    by_cases he : eligibleEntry users ty e
    · simp [backfill, he] at h
    · simp only [backfill, he, if_neg, Bool.false_eq_true, ite_false] at h ⊢
      obtain ⟨h1, h2⟩ := ih h
      exact ⟨by rw [h1], by simpa [he] using h2⟩

theorem backfill_some {users : List User} {ty : String} {q : List QueueEntry} {u : Nat}
    (h : (backfill users ty q).1 = some u) :
    ∃ l e r, q = l ++ e :: r ∧ (∀ x ∈ l, eligibleEntry users ty x = false) ∧
      eligibleEntry users ty e = true ∧ u = e.userId ∧
      (backfill users ty q).2 = l ++ r := by
  induction q with
  | nil => simp [backfill] at h
  | cons e rest ih =>
    by_cases he : eligibleEntry users ty e
    · refine ⟨[], e, rest, rfl, by simp, he, ?_, ?_⟩
      · simpa [backfill, he] using h.symm
      · simp [backfill, he]
    · simp only [backfill, he, Bool.false_eq_true, ite_false] at h ⊢
      obtain ⟨l, e', r, h1, h2, h3, h4, h5⟩ := ih h
      exact ⟨e :: l, e', r, by rw [h1]; simp, by simpa [he] using h2, h3, h4, by rw [h5]; simp⟩

theorem backfill_sublist (users : List User) (ty : String) (q : List QueueEntry) :
    (backfill users ty q).2.Sublist q := by
  induction q with
  | nil => simp [backfill]
  | cons e rest ih =>
    by_cases he : eligibleEntry users ty e
    · simp only [backfill, he, ite_true]
      exact List.sublist_cons_self e rest
    · simpa [backfill, he] using ih.cons₂ e

/-- An eligible entry's user exists in the users list. -/
theorem eligibleEntry_user_exists {users : List User} {ty : String} {e : QueueEntry}
    (h : eligibleEntry users ty e = true) :
    ∃ x ∈ users, x.id = e.userId := by
  unfold eligibleEntry at h
  cases hf : users.find? (fun x => x.id == e.userId) with
  | none => rw [hf] at h; simp at h
  | some x =>
    refine ⟨x, List.mem_of_find?_eq_some hf, ?_⟩
    have := List.find?_some hf
    simpa using this

/-- An eligible entry is not dangling. -/
theorem eligibleEntry_not_dangling {users : List User} {ty : String} {e : QueueEntry}
    (h : eligibleEntry users ty e = true) : dangling users e = false := by
  unfold eligibleEntry at h
  unfold dangling
  cases hf : users.find? (fun x => x.id == e.userId) with
  | none => rw [hf] at h; simp at h
  | some x => simp [hf]

theorem backfill_dangling_filter (users : List User) (ty : String) (q : List QueueEntry) :
    (backfill users ty q).2.filter (dangling users) = q.filter (dangling users) := by
  cases hb : (backfill users ty q).1 with
  | none => rw [(backfill_none hb).1]
  | some u =>
    obtain ⟨l, e, r, h1, _, h3, _, h5⟩ := backfill_some hb
    rw [h5, h1, List.filter_append, List.filter_append, List.filter_cons,
      eligibleEntry_not_dangling h3]
    simp

theorem backfill_some_not_mem {users : List User} {ty : String} {q : List QueueEntry} {u : Nat}
    (hu : (q.map (fun e => e.userId)).Nodup) (h : (backfill users ty q).1 = some u) :
    u ∉ (backfill users ty q).2.map (fun e => e.userId) := by
  obtain ⟨l, e, r, h1, _, _, h4, h5⟩ := backfill_some h
  subst h1 h4
  rw [h5]
  simp only [List.map_append, List.map_cons] at hu ⊢
  have := List.nodup_middle.mp hu
  rw [List.nodup_cons] at this
  simpa using this.1

theorem backfill_nodup {users : List User} {ty : String} {q : List QueueEntry}
    (hu : (q.map (fun e => e.userId)).Nodup) :
    ((backfill users ty q).2.map (fun e => e.userId)).Nodup :=
  ((backfill_sublist users ty q).map _).nodup hu

theorem fillGo_cons_skip {users : List User} {s : Spot} {rest : List Spot}
    {q : List QueueEntry} (h : falsyId s.userId = false) :
    fillGo users (s :: rest) q = (s :: (fillGo users rest q).1, (fillGo users rest q).2) := by
  simp [fillGo, h]

theorem fillGo_cons_assign {users : List User} {s : Spot} {rest : List Spot}
    {q q2 : List QueueEntry} {u : Nat} (h : falsyId s.userId = true)
    (hb : backfill users s.type q = (some u, q2)) :
    fillGo users (s :: rest) q =
      ({ s with userId := some u } :: (fillGo users rest q2).1, (fillGo users rest q2).2) := by
  simp only [fillGo]
  rw [h, hb]
  rfl

theorem fillGo_cons_noMatch {users : List User} {s : Spot} {rest : List Spot}
    {q : List QueueEntry} (h : falsyId s.userId = true)
    (hb : (backfill users s.type q).1 = none) :
    fillGo users (s :: rest) q = (s :: (fillGo users rest q).1, (fillGo users rest q).2) := by
  have hb' : backfill users s.type q = (none, (backfill users s.type q).2) := by
    rw [← hb]
  simp only [fillGo]
  rw [h, hb']
  rfl

theorem esGo_cons_miss {users : List User} {spotId : String} {s : Spot} {rest : List Spot}
    {q : List QueueEntry} (h : (s.id == spotId) = false) :
    endSessionGo users spotId (s :: rest) q =
      (s :: (endSessionGo users spotId rest q).1, (endSessionGo users spotId rest q).2) := by
  simp [endSessionGo, h]

theorem esGo_cons_hit_some {users : List User} {spotId : String} {s : Spot} {rest : List Spot}
    {q q2 : List QueueEntry} {u : Nat} (h : (s.id == spotId) = true)
    (hb : backfill users s.type q = (some u, q2)) :
    endSessionGo users spotId (s :: rest) q = ({ s with userId := some u } :: rest, q2) := by
  simp only [endSessionGo]
  rw [h, hb]
  rfl

theorem esGo_cons_hit_none {users : List User} {spotId : String} {s : Spot} {rest : List Spot}
    {q : List QueueEntry} (h : (s.id == spotId) = true)
    (hb : (backfill users s.type q).1 = none) :
    endSessionGo users spotId (s :: rest) q = ({ s with userId := none } :: rest, q) := by
  have hb' : backfill users s.type q = (none, (backfill users s.type q).2) := by
    rw [← hb]
  simp only [endSessionGo]
  rw [h, hb']
  rfl

theorem fillGo_queue_sublist (users : List User) (spots : List Spot) (q : List QueueEntry) :
    (fillGo users spots q).2.Sublist q := by
  induction spots generalizing q with
  | nil => simp [fillGo]
  | cons s rest ih =>
    by_cases h : falsyId s.userId
    · cases hb : (backfill users s.type q).1 with
      | none => rw [fillGo_cons_noMatch h hb]; exact ih q
      | some u =>
        have hb' : backfill users s.type q = (some u, (backfill users s.type q).2) := by
          rw [← hb]
        rw [fillGo_cons_assign h hb']
        exact (ih _).trans (backfill_sublist users s.type q)
    · rw [fillGo_cons_skip (by simpa using h)]
      exact ih q

theorem esGo_queue_sublist (users : List User) (spotId : String) (spots : List Spot)
    (q : List QueueEntry) :
    (endSessionGo users spotId spots q).2.Sublist q := by
  induction spots generalizing q with
  | nil => simp [endSessionGo]
  | cons s rest ih =>
    by_cases h : (s.id == spotId)
    · cases hb : (backfill users s.type q).1 with
      | none => rw [esGo_cons_hit_none h hb]
      | some u =>
        have hb' : backfill users s.type q = (some u, (backfill users s.type q).2) := by
          rw [← hb]
        rw [esGo_cons_hit_some h hb']
        exact backfill_sublist users s.type q
    · rw [esGo_cons_miss (by simpa using h)]
      exact ih q

theorem fillGo_dangling_filter (users : List User) (spots : List Spot) (q : List QueueEntry) :
    (fillGo users spots q).2.filter (dangling users) = q.filter (dangling users) := by
  induction spots generalizing q with
  | nil => simp [fillGo]
  | cons s rest ih =>
    by_cases h : falsyId s.userId
    · cases hb : (backfill users s.type q).1 with
      | none => rw [fillGo_cons_noMatch h hb]; exact ih q
      | some u =>
        have hb' : backfill users s.type q = (some u, (backfill users s.type q).2) := by
          rw [← hb]
        rw [fillGo_cons_assign h hb']
        rw [ih _]
        exact backfill_dangling_filter users s.type q
    · rw [fillGo_cons_skip (by simpa using h)]
      exact ih q

theorem esGo_dangling_filter (users : List User) (spotId : String) (spots : List Spot)
    (q : List QueueEntry) :
    (endSessionGo users spotId spots q).2.filter (dangling users) = q.filter (dangling users) := by
  induction spots generalizing q with
  | nil => simp [endSessionGo]
  | cons s rest ih =>
    by_cases h : (s.id == spotId)
    · cases hb : (backfill users s.type q).1 with
      | none => rw [esGo_cons_hit_none h hb]
      | some u =>
        have hb' : backfill users s.type q = (some u, (backfill users s.type q).2) := by
          rw [← hb]
        rw [esGo_cons_hit_some h hb']
        exact backfill_dangling_filter users s.type q
    · rw [esGo_cons_miss (by simpa using h)]
      exact ih q

theorem assignedIds_cons_same {s s' : Spot} {r r' : List Spot} (h : s'.userId = s.userId) :
    assignedIds (s :: r) (s' :: r') = assignedIds r r' := by
  cases hu : s'.userId with
  | none => simp [assignedIds, hu]
  | some u =>
    rw [hu] at h
    simp [assignedIds, hu, ← h]

theorem assignedIds_cons_self {s : Spot} {r r' : List Spot} :
    assignedIds (s :: r) (s :: r') = assignedIds r r' :=
  assignedIds_cons_same rfl

theorem assignedIds_cons_changed {s s' : Spot} {r r' : List Spot} {u : Nat}
    (hu : s'.userId = some u) (h : s'.userId ≠ s.userId) :
    assignedIds (s :: r) (s' :: r') = u :: assignedIds r r' := by
  simp [assignedIds, hu, hu ▸ h]

theorem perm_any {α : Type} {l₁ l₂ : List α} (h : l₁.Perm l₂) (p : α → Bool) :
    l₁.any p = l₂.any p := by
  induction h with
  | nil => rfl
  | cons x _ ih => simp [ih]
  | swap x y l => cases hp : p x <;> cases hq : p y <;> simp [hp, hq]
  | trans _ _ ih₁ ih₂ => rw [ih₁, ih₂]

theorem set_self_of_getElem? {α : Type} {l : List α} {i : Nat} {a : α}
    (h : l[i]? = some a) : l.set i a = l := by
  induction l generalizing i with
  | nil => simp at h
  | cons x t ih =>
    cases i with
    | zero => simp at h; simp [h]
    | succ k => simp at h; simp [List.set_cons_succ, ih h]

theorem cons_set_perm {α : Type} {l : List α} {k : Nat} {b x : α}
    (h : l[k]? = some b) : (b :: l.set k x).Perm (x :: l) := by
  induction l generalizing k with
  | nil => simp at h
  | cons y s ih =>
    cases k with
    | zero =>
      simp at h
      subst h
      exact List.Perm.swap x y s
    | succ k =>
      simp at h
      exact (List.Perm.swap y b _).trans (((ih h).cons y).trans (List.Perm.swap x y s))

theorem set_set_perm {α : Type} {l : List α} {i j : Nat} {a b : α}
    (ha : l[i]? = some a) (hb : l[j]? = some b) :
    ((l.set i b).set j a).Perm l := by
  induction l generalizing i j with
  | nil => simp at ha
  | cons x t ih =>
    cases i with
    | zero =>
      simp at ha
      cases j with
      | zero => simp at hb; subst ha; subst hb; simp
      | succ k =>
        simp at hb
        subst ha
        simpa using cons_set_perm hb
    | succ m =>
      cases j with
      | zero =>
        simp at hb
        subst hb
        simp only [List.set_cons_succ, List.set_cons_zero]
        simp at ha
        exact cons_set_perm ha
      | succ k =>
        simp at ha hb
        simp only [List.set_cons_succ]
        exact (ih ha hb).cons x

theorem swapPos_map_idu (q : List QueueEntry) (i j : Nat) :
    (swapPos q i j).map (fun e => (e.id, e.userId)) = q.map (fun e => (e.id, e.userId)) := by
  unfold swapPos
  cases hi : q[i]? with
  | none => rfl
  | some a =>
    cases hj : q[j]? with
    | none => rfl
    | some b =>
      rw [List.map_set, List.map_set]
      have h1 : (q.map (fun e => (e.id, e.userId)))[i]? = some (a.id, a.userId) := by
        rw [List.getElem?_map, hi]; rfl
      have h2 : (q.map (fun e => (e.id, e.userId)))[j]? = some (b.id, b.userId) := by
        rw [List.getElem?_map, hj]; rfl
      rw [set_self_of_getElem? h1, set_self_of_getElem? h2]

theorem swapPos_map_userId (q : List QueueEntry) (i j : Nat) :
    (swapPos q i j).map (fun e => e.userId) = q.map (fun e => e.userId) := by
  have key : ∀ l : List QueueEntry,
      l.map (fun e => e.userId) = (l.map (fun e => (e.id, e.userId))).map Prod.snd := by
    intro l
    rw [List.map_map]
    rfl
  rw [key, key, swapPos_map_idu]

theorem swapPos_map_pos_perm (q : List QueueEntry) (i j : Nat) :
    ((swapPos q i j).map (fun e => e.position)).Perm (q.map (fun e => e.position)) := by
  unfold swapPos
  cases hi : q[i]? with
  | none => exact List.Perm.refl _
  | some a =>
    cases hj : q[j]? with
    | none => exact List.Perm.refl _
    | some b =>
      rw [List.map_set, List.map_set]
      have h1 : (q.map (fun e => e.position))[i]? = some a.position := by
        rw [List.getElem?_map, hi]; rfl
      have h2 : (q.map (fun e => e.position))[j]? = some b.position := by
        rw [List.getElem?_map, hj]; rfl
      exact set_set_perm h1 h2

theorem sortQueue_perm (q : List QueueEntry) : (sortQueue q).Perm q :=
  List.perm_insertionSort _ q

theorem moveQueue_queue_idu_perm (st : StateDoc) (u : Nat) (δ : Int) :
    ((moveQueue st u δ).queue.map (fun e => (e.id, e.userId))).Perm
      (st.queue.map (fun e => (e.id, e.userId))) := by
  have hsort := (sortQueue_perm st.queue).map (fun e => (e.id, e.userId))
  unfold moveQueue
  split
  · exact hsort
  · split
    · rw [swapPos_map_idu]
      exact hsort
    · exact hsort

theorem moveQueue_queue_pos_perm (st : StateDoc) (u : Nat) (δ : Int) :
    ((moveQueue st u δ).queue.map (fun e => e.position)).Perm
      (st.queue.map (fun e => e.position)) := by
  have hsort := (sortQueue_perm st.queue).map (fun e => e.position)
  unfold moveQueue
  split
  · exact hsort
  · split
    · exact (swapPos_map_pos_perm _ _ _).trans hsort
    · exact hsort

theorem moveQueue_frame (st : StateDoc) (u : Nat) (δ : Int) :
    (moveQueue st u δ).users = st.users ∧ (moveQueue st u δ).spots = st.spots ∧
      (moveQueue st u δ).lastReset = st.lastReset := by
  unfold moveQueue
  split
  · exact ⟨rfl, rfl, rfl⟩
  · split
    · exact ⟨rfl, rfl, rfl⟩
    · exact ⟨rfl, rfl, rfl⟩

theorem moveQueue_queue_userId_perm (st : StateDoc) (u : Nat) (δ : Int) :
    ((moveQueue st u δ).queue.map (fun e => e.userId)).Perm
      (st.queue.map (fun e => e.userId)) := by
  have key : ∀ l : List QueueEntry,
      l.map (fun e => e.userId) = (l.map (fun e => (e.id, e.userId))).map Prod.snd := by
    intro l
    rw [List.map_map]
    rfl
  rw [key, key]
  exact (moveQueue_queue_idu_perm st u δ).map Prod.snd

/-- Executable form of the no-double-placement invariant. -/
def noDoubleB (st : StateDoc) : Bool :=
  st.queue.all (fun e => !(isPlaced st e.userId))

theorem noDouble_iff_mem (st : StateDoc) :
    NoDouble st ↔ ∀ e ∈ st.queue, ∀ s ∈ st.spots, s.userId ≠ some e.userId := by
  constructor
  · intro h e he s hs heq
    refine h e.userId ⟨?_, ?_⟩
    · rw [isPlaced, List.any_eq_true]
      exact ⟨s, hs, by simp [heq]⟩
    · rw [isQueued, List.any_eq_true]
      exact ⟨e, he, by simp⟩
  · rintro h u ⟨hp, hq⟩
    rw [isPlaced, List.any_eq_true] at hp
    rw [isQueued, List.any_eq_true] at hq
    obtain ⟨s, hs, hsu⟩ := hp
    obtain ⟨e, he, heu⟩ := hq
    simp only [beq_iff_eq] at hsu heu
    exact h e he s hs (by rw [hsu, heu])

theorem noDouble_iff_bool (st : StateDoc) : NoDouble st ↔ noDoubleB st = true := by
  rw [noDouble_iff_mem]
  simp [noDoubleB, isPlaced, List.all_eq_true, List.any_eq_true]

theorem fillGo_noDouble (users : List User) (spots : List Spot) (q : List QueueEntry)
    (hq : (q.map (fun e => e.userId)).Nodup)
    (h : ∀ e ∈ q, ∀ s ∈ spots, s.userId ≠ some e.userId) :
    ∀ e ∈ (fillGo users spots q).2, ∀ s ∈ (fillGo users spots q).1,
      s.userId ≠ some e.userId := by
  induction spots generalizing q with
  | nil => simp [fillGo]
  | cons s rest ih =>
    by_cases h1 : falsyId s.userId
    · cases hb : (backfill users s.type q).1 with
      | none =>
        rw [fillGo_cons_noMatch h1 hb]
        intro e he sp hsp
        rcases List.mem_cons.mp hsp with rfl | hsp'
        · exact h e ((fillGo_queue_sublist users rest q).subset he) sp (List.mem_cons_self _ _)
        · exact ih q hq (fun e' he' s' hs' => h e' he' s' (List.mem_cons_of_mem _ hs')) e he sp hsp'
      | some u0 =>
        have hb' : backfill users s.type q = (some u0, (backfill users s.type q).2) := by
          rw [← hb]
        rw [fillGo_cons_assign h1 hb']
        intro e he sp hsp
        have hq2 := @backfill_nodup users s.type q hq
        have hsub := backfill_sublist users s.type q
        rcases List.mem_cons.mp hsp with rfl | hsp'
        · intro heq
          simp only [Option.some.injEq] at heq
          have hmem : e.userId ∈ (backfill users s.type q).2.map (fun e => e.userId) :=
            List.mem_map_of_mem _ ((fillGo_queue_sublist users rest _).subset he)
          rw [← heq] at hmem
          exact backfill_some_not_mem hq hb hmem
        · exact ih _ hq2
            (fun e' he' s' hs' => h e' (hsub.subset he') s' (List.mem_cons_of_mem _ hs'))
            e he sp hsp'
    · rw [fillGo_cons_skip (by simpa using h1)]
      intro e he sp hsp
      rcases List.mem_cons.mp hsp with rfl | hsp'
      · exact h e ((fillGo_queue_sublist users rest q).subset he) sp (List.mem_cons_self _ _)
      · exact ih q hq (fun e' he' s' hs' => h e' he' s' (List.mem_cons_of_mem _ hs')) e he sp hsp'

theorem esGo_noDouble (users : List User) (spotId : String) (spots : List Spot)
    (q : List QueueEntry) (hq : (q.map (fun e => e.userId)).Nodup)
    (h : ∀ e ∈ q, ∀ s ∈ spots, s.userId ≠ some e.userId) :
    ∀ e ∈ (endSessionGo users spotId spots q).2, ∀ s ∈ (endSessionGo users spotId spots q).1,
      s.userId ≠ some e.userId := by
  induction spots generalizing q with
  | nil => simp [endSessionGo]
  | cons s rest ih =>
    by_cases h1 : (s.id == spotId)
    · cases hb : (backfill users s.type q).1 with
      | none =>
        rw [esGo_cons_hit_none h1 hb]
        intro e he sp hsp
        rcases List.mem_cons.mp hsp with rfl | hsp'
        · simp
        · exact h e he sp (List.mem_cons_of_mem _ hsp')
      | some u0 =>
        have hb' : backfill users s.type q = (some u0, (backfill users s.type q).2) := by
          rw [← hb]
        rw [esGo_cons_hit_some h1 hb']
        intro e he sp hsp
        have hsub := backfill_sublist users s.type q
        rcases List.mem_cons.mp hsp with rfl | hsp'
        · intro heq
          simp only [Option.some.injEq] at heq
          have hmem : e.userId ∈ (backfill users s.type q).2.map (fun e => e.userId) :=
            List.mem_map_of_mem _ he
          rw [← heq] at hmem
          exact backfill_some_not_mem hq hb hmem
        · exact h e (hsub.subset he) sp (List.mem_cons_of_mem _ hsp')
    · rw [esGo_cons_miss (by simpa using h1)]
      intro e he sp hsp
      rcases List.mem_cons.mp hsp with rfl | hsp'
      · exact h e ((esGo_queue_sublist users spotId rest q).subset he) sp (List.mem_cons_self _ _)
      · exact ih q hq (fun e' he' s' hs' => h e' he' s' (List.mem_cons_of_mem _ hs')) e he sp hsp'

theorem assignedIds_self (r : List Spot) : assignedIds r r = [] := by
  induction r with
  | nil => rfl
  | cons s rest ih => rw [assignedIds_cons_self, ih]

theorem fillGo_assigned (users : List User) (spots : List Spot) (q : List QueueEntry)
    (hq : (q.map (fun e => e.userId)).Nodup) :
    (assignedIds spots (fillGo users spots q).1).Nodup
    ∧ ∀ u ∈ assignedIds spots (fillGo users spots q).1,
        u ∈ q.map (fun e => e.userId) ∧ u ∉ (fillGo users spots q).2.map (fun e => e.userId) := by
  induction spots generalizing q with
  | nil => simp [fillGo, assignedIds]
  | cons s rest ih =>
    by_cases h1 : falsyId s.userId
    · cases hb : (backfill users s.type q).1 with
      | none =>
        rw [fillGo_cons_noMatch h1 hb, assignedIds_cons_self]
        exact ih q hq
      | some u0 =>
        have hb' : backfill users s.type q = (some u0, (backfill users s.type q).2) := by
          rw [← hb]
        have hq2 := @backfill_nodup users s.type q hq
        have hnm := backfill_some_not_mem hq hb
        have hsubq := (backfill_sublist users s.type q).map (fun e => e.userId)
        obtain ⟨l, e0, r0, hdec, _, _, hu0, _⟩ := backfill_some hb
        have hu0q : u0 ∈ q.map (fun e => e.userId) := by
          rw [hdec]
          simp [hu0]
        rw [fillGo_cons_assign h1 hb']
        obtain ⟨ihn, ihm⟩ := ih (backfill users s.type q).2 hq2
        have hfin := (fillGo_queue_sublist users rest (backfill users s.type q).2).map
          (fun e => e.userId)
        by_cases hsame : (some u0 : Option Nat) = s.userId
        · rw [assignedIds_cons_same (show Spot.userId { s with userId := some u0 } = s.userId from hsame)]
          refine ⟨ihn, ?_⟩
          intro u hu
          obtain ⟨h5, h6⟩ := ihm u hu
          exact ⟨hsubq.subset h5, h6⟩
        · rw [assignedIds_cons_changed rfl (by simpa using fun hx => hsame hx)]
          refine ⟨List.nodup_cons.mpr ⟨fun hmem => hnm ((ihm u0 hmem).1), ihn⟩, ?_⟩
          intro u hu
          rcases List.mem_cons.mp hu with rfl | hu'
          · exact ⟨hu0q, fun hx => hnm (hfin.subset hx)⟩
          · obtain ⟨h5, h6⟩ := ihm u hu'
            exact ⟨hsubq.subset h5, h6⟩
    · rw [fillGo_cons_skip (by simpa using h1), assignedIds_cons_self]
      exact ih q hq

theorem fillGo_assigned_user (users : List User) (spots : List Spot) (q : List QueueEntry) :
    ∀ u ∈ assignedIds spots (fillGo users spots q).1, ∃ x ∈ users, x.id = u := by
  induction spots generalizing q with
  | nil => simp [fillGo, assignedIds]
  | cons s rest ih =>
    by_cases h1 : falsyId s.userId
    · cases hb : (backfill users s.type q).1 with
      | none =>
        rw [fillGo_cons_noMatch h1 hb, assignedIds_cons_self]
        exact ih q
      | some u0 =>
        have hb' : backfill users s.type q = (some u0, (backfill users s.type q).2) := by
          rw [← hb]
        obtain ⟨l, e0, r0, _, _, hel, hu0, _⟩ := backfill_some hb
        rw [fillGo_cons_assign h1 hb']
        by_cases hsame : (some u0 : Option Nat) = s.userId
        · rw [assignedIds_cons_same (show Spot.userId { s with userId := some u0 } = s.userId from hsame)]
          exact ih _
        · rw [assignedIds_cons_changed rfl (by simpa using fun hx => hsame hx)]
          intro u hu
          rcases List.mem_cons.mp hu with rfl | hu'
          · exact hu0 ▸ eligibleEntry_user_exists hel
          · exact ih _ u hu'
    · rw [fillGo_cons_skip (by simpa using h1), assignedIds_cons_self]
      exact ih q

theorem esGo_assigned_user (users : List User) (spotId : String) (spots : List Spot)
    (q : List QueueEntry) :
    ∀ u ∈ assignedIds spots (endSessionGo users spotId spots q).1, ∃ x ∈ users, x.id = u := by
  induction spots generalizing q with
  | nil => simp [endSessionGo, assignedIds]
  | cons s rest ih =>
    by_cases h1 : (s.id == spotId)
    · cases hb : (backfill users s.type q).1 with
      | none =>
        rw [esGo_cons_hit_none h1 hb]
        have : assignedIds (s :: rest) ({ s with userId := none } :: rest) =
            assignedIds rest rest := by
          simp [assignedIds]
        rw [this, assignedIds_self]
        simp
      | some u0 =>
        have hb' : backfill users s.type q = (some u0, (backfill users s.type q).2) := by
          rw [← hb]
        obtain ⟨l, e0, r0, _, _, hel, hu0, _⟩ := backfill_some hb
        rw [esGo_cons_hit_some h1 hb']
        by_cases hsame : (some u0 : Option Nat) = s.userId
        · rw [assignedIds_cons_same (show Spot.userId { s with userId := some u0 } = s.userId from hsame),
            assignedIds_self]
          simp
        · rw [assignedIds_cons_changed rfl (by simpa using fun hx => hsame hx),
            assignedIds_self]
          intro u hu
          rcases List.mem_cons.mp hu with rfl | hu'
          · exact hu0 ▸ eligibleEntry_user_exists hel
          · simp at hu'
    · rw [esGo_cons_miss (by simpa using h1), assignedIds_cons_self]
      exact ih q

theorem esGo_append_miss (users : List User) (spotId : String) (pre spots : List Spot)
    (q : List QueueEntry) (hpre : ∀ x ∈ pre, (x.id == spotId) = false) :
    endSessionGo users spotId (pre ++ spots) q =
      (pre ++ (endSessionGo users spotId spots q).1, (endSessionGo users spotId spots q).2) := by
  induction pre with
  | nil => simp
  | cons x t ih =>
    rw [List.cons_append, esGo_cons_miss (hpre x (List.mem_cons_self _ _)),
      ih (fun y hy => hpre y (List.mem_cons_of_mem _ hy))]
    rfl

theorem any_userId_eq_of_map_perm {q1 q2 : List QueueEntry}
    (h : (q1.map (fun e => e.userId)).Perm (q2.map (fun e => e.userId))) (v : Nat) :
    q1.any (fun e => e.userId == v) = q2.any (fun e => e.userId == v) := by
  have key : ∀ l : List QueueEntry,
      l.any (fun e => e.userId == v) = (l.map (fun e => e.userId)).any (fun x => x == v) := by
    intro l
    induction l with
    | nil => rfl
    | cons e t ih => simp [ih]
  rw [key, key, perm_any h]

/-! Claim theorems. -/

/-- C7: for every state and payload, `moveQueue` preserves the multiset of
`(id, userId)` entry identities (hence the set of userIds and the entry
count) and the multiset of position values of the queue; users, spots and
lastReset are untouched.  The only queue change is the swap of two position
values (plus the in-place re-sort of document order). -/
theorem moveQueue_preserves_ids_and_positions (st : StateDoc) (userId : Nat) (delta : Int) :
    ((moveQueue st userId delta).queue.map (fun e => (e.id, e.userId))).Perm
      (st.queue.map (fun e => (e.id, e.userId)))
    ∧ ((moveQueue st userId delta).queue.map (fun e => e.userId)).Perm
      (st.queue.map (fun e => e.userId))
    ∧ ((moveQueue st userId delta).queue.map (fun e => e.position)).Perm
      (st.queue.map (fun e => e.position))
    ∧ (moveQueue st userId delta).queue.length = st.queue.length
    ∧ (moveQueue st userId delta).users = st.users
    ∧ (moveQueue st userId delta).spots = st.spots
    ∧ (moveQueue st userId delta).lastReset = st.lastReset := by
  have h1 := moveQueue_queue_idu_perm st userId delta
  have h2 := moveQueue_queue_pos_perm st userId delta
  have h3 := moveQueue_frame st userId delta
  refine ⟨h1, moveQueue_queue_userId_perm st userId delta, h2, ?_, h3.1, h3.2.1, h3.2.2⟩
  have := h1.length_eq
  simpa using this

/-- C9: reading the store when it holds no object returns the canonical
default document: exactly 4 spots, two per spot type, all free, empty users
and queue, `lastReset = null`. -/
theorem read_empty_store_gives_default (v : Nat) :
    runGet { blob := none, ver := v } = defaultState
    ∧ defaultState.spots.length = 4
    ∧ (defaultState.spots.filter (fun s => s.type == "Tesla")).length = 2
    ∧ (defaultState.spots.filter (fun s => s.type == "ChargePoint")).length = 2
    ∧ defaultState.spots.all (fun s => s.userId == none) = true
    ∧ defaultState.users = [] ∧ defaultState.queue = [] ∧ defaultState.lastReset = none := by
  exact ⟨rfl, by decide, by decide, by decide, by decide, rfl, rfl, rfl⟩

/-- C3: two invocations read at the same version; after the first conditional
write succeeds and advances the store, the second write, still conditioned on
the stale token, fails with `Conflict`, is surfaced as an error response, and
leaves the first write in place; and every invocation's write is conditioned
on exactly the token of its own initial read. -/
theorem stale_write_conflicts (s0 : Store) (dA dB : StateDoc) :
    (∃ s1, storeWrite s0 dA (readToken s0) = .ok s1 ∧ s1.blob = some dA
      ∧ storeWrite s1 dB (readToken s0) = .error .conflict
      ∧ writePhase s1 dB (readToken s0) = (.errorResp 500 "Error: Repo write failed", s1))
    ∧ (∀ (a : Action) (now : Nat) (d : StateDoc), applyAction (docOf s0) a now = .ok d →
        runPost s0 a now = writePhase s0 d (readToken s0)) := by
  constructor
  · refine ⟨{ blob := some dA, ver := s0.ver + 1 }, ?_, rfl, ?_, ?_⟩
    · simp [storeWrite]
    · have hne : readToken s0 ≠ readToken { blob := some dA, ver := s0.ver + 1 } := by
        cases h : s0.blob <;> simp [readToken, h]
      simp [storeWrite, hne]
    · have hne : readToken s0 ≠ readToken { blob := some dA, ver := s0.ver + 1 } := by
        cases h : s0.blob <;> simp [readToken, h]
      simp [writePhase, storeWrite, hne]
  · intro a now d h
    simp [runPost, h]

/-- C3 witness: concrete race on a store at version 5 holding the default
document. -/
theorem stale_write_conflicts_witness :
    (∃ s1, storeWrite { blob := some defaultState, ver := 5 } defaultState
        (readToken { blob := some defaultState, ver := 5 }) = .ok s1
      ∧ s1.blob = some defaultState
      ∧ storeWrite s1 { defaultState with queue := [] }
          (readToken { blob := some defaultState, ver := 5 }) = .error .conflict
      ∧ writePhase s1 { defaultState with queue := [] }
          (readToken { blob := some defaultState, ver := 5 }) =
          (.errorResp 500 "Error: Repo write failed", s1))
    ∧ runPost { blob := some defaultState, ver := 5 } .clearQueue 0 =
        writePhase { blob := some defaultState, ver := 5 } { defaultState with queue := [] }
          (readToken { blob := some defaultState, ver := 5 }) := by
  have h := stale_write_conflicts { blob := some defaultState, ver := 5 } defaultState
    { defaultState with queue := [] }
  exact ⟨h.1, h.2 .clearQueue 0 { defaultState with queue := [] } rfl⟩

/-- C8: a validation failure (empty trimmed name, missing userId, unknown
action) produces the 400 response and no write — the store is returned
untouched; a successful action writes exactly the engine's full output
document. -/
theorem failures_write_nothing (s : Store) (a : Action) (now : Nat) :
    (∀ msg, applyAction (docOf s) a now = .error (.invalidInput msg) →
        runPost s a now = (.errorResp 400 msg, s))
    ∧ (∀ d, applyAction (docOf s) a now = .ok d →
        runPost s a now = (.okTrue, { blob := some d, ver := s.ver + 1 }))
    ∧ (∀ name pref, trimName name = "" →
        applyAction (docOf s) (.addUser name pref) now = .error (.invalidInput "Name required"))
    ∧ applyAction (docOf s) (.addToQueue 0) now = .error (.invalidInput "userId required")
    ∧ (∀ nm, applyAction (docOf s) (.unknownAction nm) now =
        .error (.invalidInput "Unknown action")) := by
  refine ⟨?_, ?_, ?_, rfl, fun _ => rfl⟩
  · intro msg h
    simp [runPost, h]
  · intro d h
    simp [runPost, h, writePhase, storeWrite]
  · intro name pref h
    simp [applyAction, h]

/-- C8 witness: a concrete rejected `addUser` leaves the store untouched; a
concrete successful `clearQueue` writes the full new document. -/
theorem failures_write_nothing_witness :
    runPost { blob := some defaultState, ver := 7 } (.addUser " " "") 0 =
      (.errorResp 400 "Name required", { blob := some defaultState, ver := 7 })
    ∧ runPost { blob := some defaultState, ver := 7 } .clearQueue 0 =
      (.okTrue, { blob := some { defaultState with queue := [] }, ver := 8 }) := by
  have h1 := failures_write_nothing { blob := some defaultState, ver := 7 } (.addUser " " "") 0
  have h2 := failures_write_nothing { blob := some defaultState, ver := 7 } .clearQueue 0
  exact ⟨h1.1 "Name required" rfl, h2.2.1 { defaultState with queue := [] } rfl⟩

/-- C10: `endSession` and `fillSpots` skip queue entries whose userId matches
no user record — the dangling entries all stay in the queue unchanged — and
every user id the backfill writes into a spot belongs to an existing user. -/
theorem backfill_skips_dangling_entries (st : StateDoc) (spotId : String) :
    ((endSession st spotId).queue.filter (dangling st.users) =
      st.queue.filter (dangling st.users))
    ∧ ((fillSpots st).queue.filter (dangling st.users) =
      st.queue.filter (dangling st.users))
    ∧ (∀ u ∈ assignedIds st.spots (endSession st spotId).spots, ∃ x ∈ st.users, x.id = u)
    ∧ (∀ u ∈ assignedIds st.spots (fillSpots st).spots, ∃ x ∈ st.users, x.id = u) :=
  ⟨esGo_dangling_filter st.users spotId st.spots st.queue,
   fillGo_dangling_filter st.users st.spots st.queue,
   esGo_assigned_user st.users spotId st.spots st.queue,
   fillGo_assigned_user st.users st.spots st.queue⟩

/-- The concrete state of the C10 witness: user 7 is dangling, user 2 exists. -/
def c10state : StateDoc :=
  { users := [{ id := 2, name := "b", pref := "Both" }]
    queue := [{ id := 10, userId := 7, position := 1 }, { id := 11, userId := 2, position := 2 }]
    spots := [{ id := "tesla-1", type := "Tesla", label := "Tesla #1", userId := none }]
    lastReset := none }

/-- C10 witness: the dangling entry for user 7 survives both calls and the
one assigned id (2) belongs to an existing user. -/
theorem backfill_skips_dangling_entries_witness :
    ((endSession c10state "tesla-1").queue.filter (dangling c10state.users) =
      c10state.queue.filter (dangling c10state.users))
    ∧ ((fillSpots c10state).queue.filter (dangling c10state.users) =
      c10state.queue.filter (dangling c10state.users))
    ∧ (∃ x ∈ c10state.users, x.id = 2) := by
  have h := backfill_skips_dangling_entries c10state "tesla-1"
  exact ⟨h.1, h.2.1, h.2.2.2 2 (by decide)⟩

/-- The concrete state refuting C1 as stated: user 1 is not placed but holds
two queue entries, so the hypothesis of the claim (no double placement) holds
without per-user queue uniqueness. -/
def c1state : StateDoc :=
  { users := [{ id := 1, name := "a", pref := "Both" }]
    queue := [{ id := 10, userId := 1, position := 1 }, { id := 11, userId := 1, position := 2 }]
    spots := [{ id := "tesla-1", type := "Tesla", label := "Tesla #1", userId := some 9 }]
    lastReset := none }

/-- C1 counterexample: from a state satisfying no-double-placement (but with
two queue entries for user 1), `endSession` places user 1 on the freed spot
while the second entry keeps user 1 queued — the invariant is not preserved,
so the claim as stated is false. -/
theorem noDouble_not_preserved_counterexample :
    NoDouble c1state
    ∧ (Action.endSession "tesla-1").isWriteAll = false
    ∧ ¬ NoDouble (stepState c1state (.endSession "tesla-1") 0) := by
  refine ⟨(noDouble_iff_bool _).mpr (by decide), rfl, ?_⟩
  intro h
  exact absurd ((noDouble_iff_bool _).mp h) (by decide)

/-- C1 (amended): starting from a state where no user is both placed and
queued AND the queue holds at most one entry per userId, every engine action
other than `writeAll` preserves the no-double-placement invariant. -/
theorem noDouble_preserved (st : StateDoc) (a : Action) (now : Nat)
    (h1 : NoDouble st) (h2 : QueueUnique st) (h3 : a.isWriteAll = false) :
    NoDouble (stepState st a now) := by
  cases a with
  | writeAll d => simp [Action.isWriteAll] at h3
  | unknownAction nm => exact h1
  | clearQueue =>
    rintro u ⟨_, hq⟩
    simp [stepState, applyAction, isQueued] at hq
  | addUser name pref =>
    by_cases hn : trimName name = ""
    · simpa [stepState, applyAction, hn] using h1
    · simp only [stepState, applyAction, hn, if_neg]
      exact h1
  | removeFromQueue u =>
    rw [noDouble_iff_mem] at h1 ⊢
    intro e he s hs
    exact h1 e (List.mem_of_mem_filter he) s hs
  | moveQueue u δ =>
    rintro v ⟨hp, hq⟩
    refine h1 v ⟨?_, ?_⟩
    · have hframe := (moveQueue_frame st u δ).2.1
      simp only [stepState, applyAction] at hp
      rw [isPlaced, hframe] at hp
      exact hp
    · simp only [stepState, applyAction] at hq
      rw [isQueued, any_userId_eq_of_map_perm (moveQueue_queue_userId_perm st u δ) v] at hq
      exact hq
  | addToQueue u =>
    cases h0 : (u == 0) with
    | true => simpa [stepState, applyAction, h0] using h1
    | false =>
      cases hoc : st.spots.any (fun s => s.userId == some u) with
      | true => simpa [stepState, applyAction, h0, hoc] using h1
      | false =>
        cases hiq : st.queue.any (fun q => q.userId == u) with
        | true => simpa [stepState, applyAction, h0, hoc, hiq] using h1
        | false =>
          rw [noDouble_iff_mem] at h1 ⊢
          simp only [stepState, applyAction, h0, hoc, hiq]
          intro e he s hs
          rcases List.mem_append.mp he with he' | he'
          · exact h1 e he' s hs
          · have : e = { id := now, userId := u, position := nextPos st.queue } := by
              simpa using he'
            subst this
            rw [List.any_eq_false] at hoc
            simpa using hoc s hs
  | endSession spotId =>
    rw [noDouble_iff_mem] at h1 ⊢
    exact esGo_noDouble st.users spotId st.spots st.queue h2 h1
  | fillSpots =>
    rw [noDouble_iff_mem] at h1 ⊢
    exact fillGo_noDouble st.users st.spots st.queue h2 h1

/-- The concrete state of the C1 witness. -/
def c1wit : StateDoc :=
  { users := [{ id := 1, name := "a", pref := "Both" }]
    queue := [{ id := 10, userId := 1, position := 1 }]
    spots := [{ id := "tesla-1", type := "Tesla", label := "Tesla #1", userId := some 9 }]
    lastReset := none }

/-- C1 witness: invariant preservation at a concrete invariant-respecting
state under a concrete `endSession`. -/
theorem noDouble_preserved_witness :
    NoDouble c1wit ∧ QueueUnique c1wit
    ∧ NoDouble (stepState c1wit (.endSession "tesla-1") 0) := by
  have hnd : NoDouble c1wit := (noDouble_iff_bool _).mpr (by decide)
  have hq : QueueUnique c1wit := by unfold QueueUnique; decide
  exact ⟨hnd, hq, noDouble_preserved c1wit (.endSession "tesla-1") 0 hnd hq rfl⟩

theorem exists_first_decomp {spots : List Spot} {spotId : String}
    (h : ∃ s ∈ spots, s.id = spotId) :
    ∃ pre s post, spots = pre ++ s :: post
      ∧ (∀ x ∈ pre, (x.id == spotId) = false) ∧ s.id = spotId := by
  induction spots with
  | nil => simp at h
  | cons y t ih =>
    by_cases hy : y.id = spotId
    · exact ⟨[], y, t, rfl, by simp, hy⟩
    · obtain ⟨s, hs, hid⟩ := h
      rcases List.mem_cons.mp hs with rfl | hs'
      · exact absurd hid hy
      · obtain ⟨pre, s', post, h1, h2, h3⟩ := ih ⟨s, hs', hid⟩
        refine ⟨y :: pre, s', post, by rw [h1]; rfl, ?_, h3⟩
        intro x hx
        rcases List.mem_cons.mp hx with rfl | hx'
        · simpa using hy
        · exact h2 x hx'

/-- The queued user the C2 claim designates, following the claim's words: sort
the queue by ascending position (ties by document order) and take the first
entry whose user is eligible for the spot type.  Stated for comparison with
the implementation, which scans the queue in raw document order. -/
def claimedPick (users : List User) (ty : String) (q : List QueueEntry) : Option QueueEntry :=
  (sortQueue q).find? (eligibleEntry users ty)

/-- The concrete state refuting C2 as stated: the queue's document order
(user 2 at position 2 first, user 1 at position 1 second) disagrees with
position order, both users eligible. -/
def c2state : StateDoc :=
  { users := [{ id := 1, name := "a", pref := "Both" }, { id := 2, name := "b", pref := "Both" }]
    queue := [{ id := 10, userId := 2, position := 2 }, { id := 11, userId := 1, position := 1 }]
    spots := [{ id := "tesla-1", type := "Tesla", label := "Tesla #1", userId := some 3 }]
    lastReset := none }

/-- C2 counterexample: `endSession` assigns user 2 (first in document order),
which is neither null nor the highest-priority eligible user by position
(user 1), so the claim as stated is false. -/
theorem endSession_not_priority_order_counterexample :
    (∃ s ∈ c2state.spots, s.id = "tesla-1")
    ∧ (endSession c2state "tesla-1").spots.map (fun s => s.userId) = [some 2]
    ∧ (claimedPick c2state.users "Tesla" c2state.queue).map (fun e => e.userId) = some 1
    ∧ (some 2 : Option Nat) ≠ none ∧ (2 : Nat) ≠ 1 := by
  refine ⟨⟨{ id := "tesla-1", type := "Tesla", label := "Tesla #1", userId := some 3 },
    by decide, rfl⟩, by decide, by decide, by decide, by decide⟩

/-- C2 (amended): for a `spotId` naming an existing spot, `endSession` frees
the first spot with that id and assigns it either nothing (when no queued
entry is eligible; the queue is untouched) or the userId of the **first
eligible entry in queue document order** (not position order); exactly that
one entry is removed and every other queue entry, every other spot, the users
and `lastReset` are unchanged. -/
theorem endSession_first_eligible_in_document_order (st : StateDoc) (spotId : String)
    (hex : ∃ s ∈ st.spots, s.id = spotId) :
    ∃ pre s post s', st.spots = pre ++ s :: post ∧ s.id = spotId
      ∧ (∀ x ∈ pre, x.id ≠ spotId)
      ∧ (endSession st spotId).spots = pre ++ s' :: post
      ∧ (endSession st spotId).users = st.users
      ∧ (endSession st spotId).lastReset = st.lastReset
      ∧ s'.id = s.id ∧ s'.type = s.type ∧ s'.label = s.label
      ∧ ((s'.userId = none ∧ (endSession st spotId).queue = st.queue
            ∧ ∀ e ∈ st.queue, eligibleEntry st.users s.type e = false)
         ∨ (∃ l e r, st.queue = l ++ e :: r
            ∧ (∀ x ∈ l, eligibleEntry st.users s.type x = false)
            ∧ eligibleEntry st.users s.type e = true
            ∧ s'.userId = some e.userId
            ∧ (endSession st spotId).queue = l ++ r)) := by
  obtain ⟨pre, s, post, hdec, hpre, hid⟩ := exists_first_decomp hex
  have hhit : (s.id == spotId) = true := by simpa using hid
  have hspots : (endSession st spotId).spots =
      (endSessionGo st.users spotId st.spots st.queue).1 := rfl
  have hqueue : (endSession st spotId).queue =
      (endSessionGo st.users spotId st.spots st.queue).2 := rfl
  rw [hdec] at hspots hqueue
  rw [esGo_append_miss st.users spotId pre (s :: post) st.queue hpre] at hspots hqueue
  cases hb : (backfill st.users s.type st.queue).1 with
  | none =>
    rw [esGo_cons_hit_none hhit hb] at hspots hqueue
    obtain ⟨_, hall⟩ := backfill_none hb
    refine ⟨pre, s, post, { s with userId := none }, hdec, hid,
      fun x hx => by simpa using hpre x hx, by simpa using hspots, rfl, rfl, rfl, rfl, rfl,
      Or.inl ⟨rfl, by simpa using hqueue, hall⟩⟩
  | some u0 =>
    have hb' : backfill st.users s.type st.queue = (some u0, (backfill st.users s.type st.queue).2) := by
      rw [← hb]
    rw [esGo_cons_hit_some hhit hb'] at hspots hqueue
    obtain ⟨l, e, r, hq1, hq2, hq3, hq4, hq5⟩ := backfill_some hb
    refine ⟨pre, s, post, { s with userId := some u0 }, hdec, hid,
      fun x hx => by simpa using hpre x hx, by simpa using hspots, rfl, rfl, rfl, rfl, rfl,
      Or.inr ⟨l, e, r, hq1, hq2, hq3, by rw [hq4], ?_⟩⟩
    rw [hqueue, hq5]

/-- The concrete state of the C2 witness: the scenario of the spec (queue
users 1 then 2, both `Both`, spot occupied by user 3). -/
def c2wit : StateDoc :=
  { users := [{ id := 1, name := "a", pref := "Both" }, { id := 2, name := "b", pref := "Both" }]
    queue := [{ id := 10, userId := 1, position := 1 }, { id := 11, userId := 2, position := 2 }]
    spots := [{ id := "tesla-1", type := "Tesla", label := "Tesla #1", userId := some 3 }]
    lastReset := none }

/-- C2 witness: the amended theorem applied to the spec's concrete scenario. -/
theorem endSession_first_eligible_in_document_order_witness :
    ∃ pre s post s', c2wit.spots = pre ++ s :: post ∧ s.id = "tesla-1"
      ∧ (∀ x ∈ pre, x.id ≠ "tesla-1")
      ∧ (endSession c2wit "tesla-1").spots = pre ++ s' :: post
      ∧ (endSession c2wit "tesla-1").users = c2wit.users
      ∧ (endSession c2wit "tesla-1").lastReset = c2wit.lastReset
      ∧ s'.id = s.id ∧ s'.type = s.type ∧ s'.label = s.label
      ∧ ((s'.userId = none ∧ (endSession c2wit "tesla-1").queue = c2wit.queue
            ∧ ∀ e ∈ c2wit.queue, eligibleEntry c2wit.users s.type e = false)
         ∨ (∃ l e r, c2wit.queue = l ++ e :: r
            ∧ (∀ x ∈ l, eligibleEntry c2wit.users s.type x = false)
            ∧ eligibleEntry c2wit.users s.type e = true
            ∧ s'.userId = some e.userId
            ∧ (endSession c2wit "tesla-1").queue = l ++ r)) :=
  endSession_first_eligible_in_document_order c2wit "tesla-1"
    ⟨{ id := "tesla-1", type := "Tesla", label := "Tesla #1", userId := some 3 },
      by decide, rfl⟩

/-- The concrete state refuting C4 as stated: the queue's document order is
not ascending by position, and the moved user (99) has no entry. -/
def c4state : StateDoc :=
  { users := []
    queue := [{ id := 10, userId := 2, position := 5 }, { id := 11, userId := 1, position := 3 }]
    spots := defaultState.spots
    lastReset := none }

/-- C4 counterexample: user 99 has no queue entry, yet `moveQueue` changes the
document — the in-place sort reorders the queue — so the claim's "leaves the
state document entirely unchanged" is false. -/
theorem moveQueue_noop_changes_document_counterexample :
    c4state.queue.all (fun e => !(e.userId == 99)) = true
    ∧ moveQueue c4state 99 0 ≠ c4state
    ∧ (moveQueue c4state 99 0).queue ≠ c4state.queue := by
  refine ⟨by decide, ?_, by decide⟩
  intro h
  have : (moveQueue c4state 99 0).queue = c4state.queue := by rw [h]
  exact absurd this (by decide)

/-- C4 (amended): when the given userId has no queue entry, or the target
index `idx+delta` falls outside `[0, len)` (with `idx` the user's index in
the queue sorted by ascending position), `moveQueue` changes nothing *except*
that the queue sequence is left stably re-sorted by ascending position (the
in-place sort); entries themselves, users, spots and lastReset are
untouched. -/
theorem moveQueue_out_of_range_only_sorts (st : StateDoc) (userId : Nat) (delta : Int)
    (h : (∀ e ∈ st.queue, (e.userId == userId) = false)
       ∨ (∃ idx, (sortQueue st.queue).findIdx? (fun e => e.userId == userId) = some idx
           ∧ ¬(0 ≤ (idx : Int) + delta
              ∧ (idx : Int) + delta < ((sortQueue st.queue).length : Int)))) :
    moveQueue st userId delta = { st with queue := sortQueue st.queue } := by
  rcases h with h | ⟨idx, hidx, hb⟩
  · have hnone : (sortQueue st.queue).findIdx? (fun e => e.userId == userId) = none := by
      rw [List.findIdx?_eq_none_iff]
      intro x hx
      exact h x ((sortQueue_perm st.queue).subset hx)
    unfold moveQueue
    rw [hnone]
  · unfold moveQueue
    split
    · rfl
    · rename_i idx2 hidx2
      rw [hidx] at hidx2
      have : idx2 = idx := (Option.some.inj hidx2).symm
      subst this
      split
      · rename_i hbb
        exact absurd hbb hb
      · rfl

/-- The concrete state of the C4 witness. -/
def c4wit : StateDoc :=
  { users := []
    queue := [{ id := 10, userId := 2, position := 5 }, { id := 11, userId := 1, position := 3 }]
    spots := []
    lastReset := none }

/-- C4 witness: moving an absent user only re-sorts the queue. -/
theorem moveQueue_out_of_range_only_sorts_witness :
    moveQueue c4wit 99 7 = { c4wit with queue := sortQueue c4wit.queue } :=
  moveQueue_out_of_range_only_sorts c4wit 99 7 (Or.inl (by decide))

/-- The concrete state refuting C5 as stated: user 1 holds two queue entries
and two Tesla spots are free. -/
def c5state : StateDoc :=
  { users := [{ id := 1, name := "a", pref := "Both" }]
    queue := [{ id := 10, userId := 1, position := 1 }, { id := 11, userId := 1, position := 2 }]
    spots := [{ id := "tesla-1", type := "Tesla", label := "Tesla #1", userId := none },
              { id := "tesla-2", type := "Tesla", label := "Tesla #2", userId := none }]
    lastReset := none }

/-- C5 counterexample: one `fillSpots` call writes user 1 into two different
spots (tesla-1 and tesla-2), so the claim as stated ("for every state") is
false. -/
theorem fillSpots_double_assign_counterexample :
    c5state.spots.map (fun s => s.userId) = [none, none]
    ∧ c5state.spots.map (fun s => s.id) = ["tesla-1", "tesla-2"]
    ∧ (fillSpots c5state).spots.map (fun s => s.userId) = [some 1, some 1] := by
  refine ⟨by decide, by decide, by decide⟩

/-- C5 (amended): when the queue holds at most one entry per userId, one
`fillSpots` call writes pairwise-distinct user ids into the spots it fills
(each spot is written at most once by construction of the loop), and every
id it writes comes from an entry of the initial queue that is gone from the
final queue. -/
theorem fillSpots_assigns_each_user_once (st : StateDoc) (hu : QueueUnique st) :
    (assignedIds st.spots (fillSpots st).spots).Nodup
    ∧ ∀ u ∈ assignedIds st.spots (fillSpots st).spots,
        u ∈ st.queue.map (fun e => e.userId)
        ∧ u ∉ (fillSpots st).queue.map (fun e => e.userId) :=
  fillGo_assigned st.users st.spots st.queue hu

/-- The concrete state of the C5 witness: two distinct queued users, two free
Tesla spots. -/
def c5wit : StateDoc :=
  { users := [{ id := 1, name := "a", pref := "Both" }, { id := 2, name := "b", pref := "Both" }]
    queue := [{ id := 10, userId := 1, position := 1 }, { id := 11, userId := 2, position := 2 }]
    spots := [{ id := "tesla-1", type := "Tesla", label := "Tesla #1", userId := none },
              { id := "tesla-2", type := "Tesla", label := "Tesla #2", userId := none }]
    lastReset := none }

/-- C5 witness: the amended theorem at a concrete unique-queue state. -/
theorem fillSpots_assigns_each_user_once_witness :
    (assignedIds c5wit.spots (fillSpots c5wit).spots).Nodup
    ∧ ∀ u ∈ assignedIds c5wit.spots (fillSpots c5wit).spots,
        u ∈ c5wit.queue.map (fun e => e.userId)
        ∧ u ∉ (fillSpots c5wit).queue.map (fun e => e.userId) :=
  fillSpots_assigns_each_user_once c5wit (by unfold QueueUnique; decide)

/-- The concrete state refuting C6 as stated: user id 0 occupies a spot
(reachable through `writeAll`), but `payload.userId = 0` is falsy for the
handler's presence check. -/
def c6state : StateDoc :=
  { users := []
    queue := []
    spots := [{ id := "tesla-1", type := "Tesla", label := "Tesla #1", userId := some 0 }]
    lastReset := none }

/-- C6 counterexample: user id 0 is placed, yet `addToQueue` for it fails
with the `userId required` validation error instead of succeeding as a no-op,
so the claim's "succeeds as a no-op rather than failing" is false for this
placed userId. -/
theorem addToQueue_zero_id_fails_counterexample :
    isPlaced c6state 0 = true
    ∧ applyAction c6state (.addToQueue 0) 1 = .error (.invalidInput "userId required") := by
  exact ⟨by decide, rfl⟩

/-- C6 (amended): for every state and every userId that is truthy for the
handler's presence check (nonzero) and already placed or already queued,
`addToQueue` succeeds and returns the state unchanged; hence applying it
twice yields exactly the same state (and so the same queue contents) as
applying it once. -/
theorem addToQueue_idempotent_when_present (st : StateDoc) (u now now2 : Nat) (h0 : u ≠ 0)
    (h : isPlaced st u = true ∨ isQueued st u = true) :
    applyAction st (.addToQueue u) now = .ok st
    ∧ stepState (stepState st (.addToQueue u) now) (.addToQueue u) now2
        = stepState st (.addToQueue u) now := by
  have hbeq : (u == 0) = false := by simpa using h0
  have hcond : (!(st.spots.any fun s => s.userId == some u)
      && !(st.queue.any fun q => q.userId == u)) = false := by
    rcases h with h | h
    · rw [isPlaced] at h
      simp [h]
    · rw [isQueued] at h
      simp [h]
  have hok : ∀ n : Nat, applyAction st (.addToQueue u) n = .ok st := by
    intro n
    simp [applyAction, hbeq, hcond]
  have hstep : stepState st (.addToQueue u) now = st := by
    simp [stepState, hok now]
  refine ⟨hok now, ?_⟩
  rw [hstep]
  simp [stepState, hok now2]

/-- The concrete state of the C6 witness: user 1 is queued. -/
def c6wit : StateDoc :=
  { users := [{ id := 1, name := "a", pref := "Both" }]
    queue := [{ id := 10, userId := 1, position := 1 }]
    spots := defaultState.spots
    lastReset := none }

/-- C6 witness: the amended no-op and idempotence at a concrete queued user. -/
theorem addToQueue_idempotent_when_present_witness :
    applyAction c6wit (.addToQueue 1) 50 = .ok c6wit
    ∧ stepState (stepState c6wit (.addToQueue 1) 50) (.addToQueue 1) 51
        = stepState c6wit (.addToQueue 1) 50 :=
  addToQueue_idempotent_when_present c6wit 1 50 51 (by decide) (Or.inr (by decide))

end EvQueue
